import Mathlib

/-!
Verification of the semaphore signal-forging program (src/src/main.rs).

The program demonstrates an invertible-permutation attack on a Semaphore
protocol built over winterfell's 64-bit field f64 (modulus 2^64 - 2^32 + 1)
and the Rescue permutation Rp64_256 (12-element state, 7 rounds).

The rescue round constants ARK1, ARK2 and the MDS matrix with its inverse
live in the semaphore crate (semaphore::air::rescue), which is not part of
the provided sources; following the specification they are fixed public
constants, so every definition below takes them as explicit parameters and
theorems are stated for all values of those parameters (with the
invertibility of the mixing matrix as a hypothesis where the specification
asserts it).
-/

namespace Semaphore

/-- Modulus of winterfell's f64 base field (`math::fields::f64::BaseElement`),
the Goldilocks prime 2^64 - 2^32 + 1. -/
def P : ℕ := 18446744069414584321

/-- The base field of the program. -/
abbrev F : Type := ZMod P

/-- A 12-element rescue permutation state (`[Felt; 12]`). -/
abbrev State12 : Type := Fin 12 → F

/-- A full 25-column trace row (`[Felt; 25]`). -/
abbrev State25 : Type := Fin 25 → F

/-- A 12 x 12 matrix over the field (the MDS mixing layer and its inverse). -/
abbrev Mat12 : Type := Fin 12 → Fin 12 → F

/-- Square-and-multiply exponentiation, the shape of winterfell's
`Felt::exp`, written with explicit fuel (64 suffices for any exponent
below 2^64). -/
def fexp : ℕ → F → ℕ → F
  | 0, _, _ => 1
  | fuel + 1, b, e =>
    if e = 0 then 1
    else
      let h := fexp fuel (b * b) (e / 2)
      if e % 2 = 1 then b * h else h

theorem fexp_eq_pow (fuel : ℕ) (b : F) (e : ℕ) (h : e < 2 ^ fuel) :
    fexp fuel b e = b ^ e := by
  induction fuel generalizing b e with
  | zero =>
    interval_cases e
    simp [fexp]
  | succ n ih =>
    by_cases he : e = 0
    · subst he; simp [fexp]
    · have hdiv : e / 2 < 2 ^ n := by
        have h2 : (2 : ℕ) ^ (n + 1) = 2 ^ n * 2 := by ring
        omega
      have hrec := ih (b * b) (e / 2) hdiv
      have hbb : (b * b) ^ (e / 2) = b ^ (2 * (e / 2)) := by
        rw [two_mul, pow_add, ← mul_pow]
      have hsplit : e = 2 * (e / 2) + e % 2 := (Nat.div_add_mod e 2).symm
      rcases Nat.mod_two_eq_zero_or_one e with hm | hm
      · have he2 : e = 2 * (e / 2) := by omega
        simp only [fexp, he, if_false, hm]
        rw [if_neg (by omega), hrec, hbb, ← he2]
      · have he2 : 2 * (e / 2) + 1 = e := by omega
        simp only [fexp, he, if_false, hm, if_pos rfl]
        rw [hrec, hbb]
        conv_rhs => rw [← he2]
        rw [pow_succ]
        simp [mul_comm]

theorem P_prime : Nat.Prime P := by
  have hfac : P - 1 = 2 ^ 32 * 3 * 5 * 17 * 257 * 65537 := by norm_num [P]
  refine lucas_primality P 7 ?_ ?_
  · have hb : P - 1 < 2 ^ 64 := by norm_num [P]
    rw [← fexp_eq_pow 64 7 (P - 1) hb]
    rw [show P - 1 = 18446744069414584320 from by norm_num [P]]
    decide
  · intro q hq hdvd
    have hq2 : (2 : ℕ).Prime := Nat.prime_two
    have hq3 : (3 : ℕ).Prime := by norm_num
    have hq5 : (5 : ℕ).Prime := by norm_num
    have hq17 : (17 : ℕ).Prime := by norm_num
    have hq257 : (257 : ℕ).Prime := by norm_num
    have hq65537 : (65537 : ℕ).Prime := by norm_num
    have hmem : q = 2 ∨ q = 3 ∨ q = 5 ∨ q = 17 ∨ q = 257 ∨ q = 65537 := by
      rw [hfac] at hdvd
      rcases (Nat.Prime.dvd_mul hq).mp hdvd with h1 | h1
      · rcases (Nat.Prime.dvd_mul hq).mp h1 with h2 | h2
        · rcases (Nat.Prime.dvd_mul hq).mp h2 with h3 | h3
          · rcases (Nat.Prime.dvd_mul hq).mp h3 with h4 | h4
            · rcases (Nat.Prime.dvd_mul hq).mp h4 with h5 | h5
              · exact Or.inl ((Nat.prime_dvd_prime_iff_eq hq hq2).mp
                  (hq.dvd_of_dvd_pow h5))
              · exact Or.inr (Or.inl ((Nat.prime_dvd_prime_iff_eq hq hq3).mp h5))
            · exact Or.inr (Or.inr (Or.inl
                ((Nat.prime_dvd_prime_iff_eq hq hq5).mp h4)))
          · exact Or.inr (Or.inr (Or.inr (Or.inl
              ((Nat.prime_dvd_prime_iff_eq hq hq17).mp h3))))
        · exact Or.inr (Or.inr (Or.inr (Or.inr (Or.inl
            ((Nat.prime_dvd_prime_iff_eq hq hq257).mp h2)))))
      · exact Or.inr (Or.inr (Or.inr (Or.inr (Or.inr
          ((Nat.prime_dvd_prime_iff_eq hq hq65537).mp h1)))))
    rcases hmem with rfl | rfl | rfl | rfl | rfl | rfl
    · rw [show (P - 1) / 2 = 9223372034707292160 from by norm_num [P],
        ← fexp_eq_pow 64 7 _ (by norm_num)]
      decide
    · rw [show (P - 1) / 3 = 6148914689804861440 from by norm_num [P],
        ← fexp_eq_pow 64 7 _ (by norm_num)]
      decide
    · rw [show (P - 1) / 5 = 3689348813882916864 from by norm_num [P],
        ← fexp_eq_pow 64 7 _ (by norm_num)]
      decide
    · rw [show (P - 1) / 17 = 1085102592318504960 from by norm_num [P],
        ← fexp_eq_pow 64 7 _ (by norm_num)]
      decide
    · rw [show (P - 1) / 257 = 71777214277877760 from by norm_num [P],
        ← fexp_eq_pow 64 7 _ (by norm_num)]
      decide
    · rw [show (P - 1) / 65537 = 281470681743360 from by norm_num [P],
        ← fexp_eq_pow 64 7 _ (by norm_num)]
      decide

instance : Fact (Nat.Prime P) := ⟨P_prime⟩

/-- The inverse S-box exponent appearing literally in the source
(`s.exp(10540996611094048183)`). -/
def INV_ALPHA : ℕ := 10540996611094048183

theorem seven_mul_inv_alpha : 7 * INV_ALPHA = 4 * (P - 1) + 1 := by
  norm_num [INV_ALPHA, P]

theorem pow_seven_inv_alpha (x : F) : x ^ (7 * INV_ALPHA) = x := by
  by_cases hx : x = 0
  · subst hx
    rw [zero_pow]
    norm_num [INV_ALPHA]
  · rw [seven_mul_inv_alpha, pow_add, pow_mul, pow_one,
      ZMod.pow_card_sub_one_eq_one (pow_ne_zero 4 hx), one_mul]

theorem fexp_sbox_then_inv (x : F) : fexp 64 (fexp 64 x 7) INV_ALPHA = x := by
  rw [fexp_eq_pow 64 x 7 (by norm_num),
    fexp_eq_pow 64 _ INV_ALPHA (by norm_num [INV_ALPHA]),
    ← pow_mul, pow_seven_inv_alpha]

theorem fexp_inv_then_sbox (x : F) : fexp 64 (fexp 64 x INV_ALPHA) 7 = x := by
  rw [fexp_eq_pow 64 x INV_ALPHA (by norm_num [INV_ALPHA]),
    fexp_eq_pow 64 _ 7 (by norm_num),
    ← pow_mul, mul_comm, pow_seven_inv_alpha]

/-- Modelled from the spec: the S-box of the rescue round raises every
element of the state to the fixed exponent alpha = 7
(semaphore::air::rescue is not under src). -/
def applySbox (s : State12) : State12 := fun i => fexp 64 (s i) 7

/-- From src main.rs line 85: raising every element to 10540996611094048183,
the algebraic inverse S-box. -/
def applyInvSbox (s : State12) : State12 := fun i => fexp 64 (s i) INV_ALPHA

/-- Modelled from the spec: application of a fixed 12 x 12 linear transform
(the MDS mixing layer or its inverse); the concrete matrix lives in
semaphore::air::rescue, which is not under src, so it is a parameter. -/
def applyMds (m : Mat12) (s : State12) : State12 :=
  fun i => Finset.sum Finset.univ fun j => m i j * s j

/-- Modelled from the spec: adding a round constant vector to the state. -/
def addConstants (c : State12) (s : State12) : State12 := fun i => s i + c i

/-- From src main.rs lines 67-70 and 76-79: subtracting a round constant
vector from the state. -/
def subConstants (c : State12) (s : State12) : State12 := fun i => s i - c i

/-- Modelled from the spec: one rescue round
(semaphore::prover::apply_rescue_round is not under src): S-box, MDS,
add ARK1, inverse S-box, MDS, add ARK2.  The matrix and the two round
constant tables are parameters. -/
def apply_rescue_round (M : Mat12) (ARK1 ARK2 : Fin 7 → State12) (r : Fin 7)
    (s : State12) : State12 :=
  addConstants (ARK2 r)
    (applyMds M (applyInvSbox (addConstants (ARK1 r) (applyMds M (applySbox s)))))

/-- From src main.rs lines 65-86: one step of the backward walk, undoing
`apply_rescue_round`: subtract ARK2, inverse MDS, raise to 7, subtract ARK1,
inverse MDS, raise to the inverse S-box exponent. -/
def inverse_rescue_round (Minv : Mat12) (ARK1 ARK2 : Fin 7 → State12) (r : Fin 7)
    (s : State12) : State12 :=
  applyInvSbox
    (applyMds Minv (subConstants (ARK1 r) (applySbox (applyMds Minv (subConstants (ARK2 r) s)))))

theorem applyInvSbox_applySbox (s : State12) : applyInvSbox (applySbox s) = s :=
  funext fun i => fexp_sbox_then_inv (s i)

theorem applySbox_applyInvSbox (s : State12) : applySbox (applyInvSbox s) = s :=
  funext fun i => fexp_inv_then_sbox (s i)

theorem subConstants_addConstants (c s : State12) :
    subConstants c (addConstants c s) = s :=
  funext fun i => add_sub_cancel_right (s i) (c i)

theorem addConstants_subConstants (c s : State12) :
    addConstants c (subConstants c s) = s :=
  funext fun i => sub_add_cancel (s i) (c i)

theorem inverse_round_of_round (M Minv : Mat12) (ARK1 ARK2 : Fin 7 → State12)
    (hM : ∀ s : State12, applyMds Minv (applyMds M s) = s) (r : Fin 7) (s : State12) :
    inverse_rescue_round Minv ARK1 ARK2 r (apply_rescue_round M ARK1 ARK2 r s) = s := by
  unfold inverse_rescue_round apply_rescue_round
  rw [subConstants_addConstants, hM, applySbox_applyInvSbox,
    subConstants_addConstants, hM, applyInvSbox_applySbox]

theorem round_of_inverse_round (M Minv : Mat12) (ARK1 ARK2 : Fin 7 → State12)
    (hMinv : ∀ s : State12, applyMds M (applyMds Minv s) = s) (r : Fin 7) (t : State12) :
    apply_rescue_round M ARK1 ARK2 r (inverse_rescue_round Minv ARK1 ARK2 r t) = t := by
  unfold inverse_rescue_round apply_rescue_round
  rw [applySbox_applyInvSbox, hMinv, addConstants_subConstants,
    applyInvSbox_applySbox, hMinv, addConstants_subConstants]

/-- From src main.rs lines 65-86: the backward walk applies the inverse
round for round indices n-1 down to 0 (the source iterates (0..7).rev()). -/
def invRounds (Minv : Mat12) (ARK1 ARK2 : Fin 7 → State12) : ℕ → State12 → State12
  | 0, t => t
  | n + 1, t =>
    invRounds Minv ARK1 ARK2 n
      (if h : n < 7 then inverse_rescue_round Minv ARK1 ARK2 ⟨n, h⟩ t else t)

/-- From src main.rs lines 103-107: the forward walk applies the round for
round indices 0 up to n-1 (the source iterates 0..7). -/
def fwdRounds (M : Mat12) (ARK1 ARK2 : Fin 7 → State12) : ℕ → State12 → State12
  | 0, s => s
  | n + 1, s =>
    if h : n < 7 then
      apply_rescue_round M ARK1 ARK2 ⟨n, h⟩ (fwdRounds M ARK1 ARK2 n s)
    else fwdRounds M ARK1 ARK2 n s

theorem fwdRounds_invRounds (M Minv : Mat12) (ARK1 ARK2 : Fin 7 → State12)
    (hMinv : ∀ s : State12, applyMds M (applyMds Minv s) = s) (n : ℕ) (t : State12) :
    fwdRounds M ARK1 ARK2 n (invRounds Minv ARK1 ARK2 n t) = t := by
  induction n generalizing t with
  | zero => rfl
  | succ n ih =>
    by_cases h : n < 7
    · simp only [invRounds, fwdRounds, dif_pos h]
      rw [ih, round_of_inverse_round M Minv ARK1 ARK2 hMinv]
    · simp only [invRounds, fwdRounds, dif_neg h]
      exact ih t

theorem invRounds_fwdRounds (M Minv : Mat12) (ARK1 ARK2 : Fin 7 → State12)
    (hM : ∀ s : State12, applyMds Minv (applyMds M s) = s) (n : ℕ) (s : State12) :
    invRounds Minv ARK1 ARK2 n (fwdRounds M ARK1 ARK2 n s) = s := by
  induction n generalizing s with
  | zero => rfl
  | succ n ih =>
    by_cases h : n < 7
    · simp only [invRounds, fwdRounds, dif_pos h]
      rw [inverse_round_of_round M Minv ARK1 ARK2 hM, ih]
    · simp only [invRounds, fwdRounds, dif_neg h]
      exact ih s

/-- From src main.rs lines 49-62: the known nullifier-lane state exposing
the target public key in positions 4..7, with zeros elsewhere. -/
def targetState (pk : Fin 4 → F) : State12 := fun i =>
  if h : 4 ≤ (i : ℕ) ∧ (i : ℕ) < 8 then pk ⟨(i : ℕ) - 4, by omega⟩ else 0

/-- From src main.rs lines 49-86: the fabricated pre-image state recovered
by walking the inverse rounds backward from the target state. -/
def fabricatedPreimage (Minv : Mat12) (ARK1 ARK2 : Fin 7 → State12)
    (pk : Fin 4 → F) : State12 :=
  invRounds Minv ARK1 ARK2 7 (targetState pk)

theorem targetState_at (pk : Fin 4 → F) (k : Fin 4) :
    targetState pk ⟨4 + (k : ℕ), by have := k.isLt; omega⟩ = pk k := by
  have hk := k.isLt
  simp only [targetState]
  rw [dif_pos (by constructor <;> omega)]
  congr 1
  ext
  simp

/-- The identity matrix, used to exhibit concrete instances of the
mixing-layer parameters. -/
def idMat : Mat12 := fun i j => if i = j then 1 else 0

theorem applyMds_idMat (s : State12) : applyMds idMat s = s := by
  funext i
  simp [applyMds, idMat, Finset.sum_ite_eq, ite_mul]

/-- The all-zero round-constant table, used in concrete instances. -/
def zeroArk : Fin 7 → State12 := fun _ _ => 0

/-- A sample concrete 12-element state. -/
def sampleState : State12 := fun i => (i : ℕ) + 2

/-- A sample concrete 4-element public key value. -/
def samplePk : Fin 4 → F := fun i => (i : ℕ) + 1

/-- C2: for every 12-element state s and round index r in 0..7, applying the
inverse round (subtract ARK2, inverse MDS, raise to 7, subtract ARK1,
inverse MDS, raise to the inverse S-box exponent) to
apply_rescue_round(s, r) yields s back exactly; the pre-image of any state
under the round exists and is unique (the round is an exact bijection).
Stated for every mixing matrix with a two-sided inverse and all round
constant tables, since the concrete tables are not under src. -/
theorem rescue_round_exact_bijection (M Minv : Mat12) (ARK1 ARK2 : Fin 7 → State12)
    (hM : ∀ s : State12, applyMds Minv (applyMds M s) = s)
    (hMinv : ∀ s : State12, applyMds M (applyMds Minv s) = s)
    (r : Fin 7) (s : State12) :
    inverse_rescue_round Minv ARK1 ARK2 r (apply_rescue_round M ARK1 ARK2 r s) = s ∧
    (∀ t : State12,
      apply_rescue_round M ARK1 ARK2 r (inverse_rescue_round Minv ARK1 ARK2 r t) = t) ∧
    (∀ s' : State12,
      apply_rescue_round M ARK1 ARK2 r s' = apply_rescue_round M ARK1 ARK2 r s → s' = s) := by
  refine ⟨inverse_round_of_round M Minv ARK1 ARK2 hM r s,
    round_of_inverse_round M Minv ARK1 ARK2 hMinv r, ?_⟩
  intro s' hs'
  have h1 := inverse_round_of_round M Minv ARK1 ARK2 hM r s'
  rw [hs', inverse_round_of_round M Minv ARK1 ARK2 hM r s] at h1
  exact h1.symm

theorem rescue_round_exact_bijection_witness :
    (∀ s : State12, applyMds idMat (applyMds idMat s) = s) ∧
    (inverse_rescue_round idMat zeroArk zeroArk 0
        (apply_rescue_round idMat zeroArk zeroArk 0 sampleState) = sampleState ∧
      (∀ t : State12,
        apply_rescue_round idMat zeroArk zeroArk 0
          (inverse_rescue_round idMat zeroArk zeroArk 0 t) = t) ∧
      (∀ s' : State12,
        apply_rescue_round idMat zeroArk zeroArk 0 s' =
            apply_rescue_round idMat zeroArk zeroArk 0 sampleState → s' = sampleState)) :=
  ⟨fun s => by rw [applyMds_idMat, applyMds_idMat],
    rescue_round_exact_bijection idMat idMat zeroArk zeroArk
      (fun s => by rw [applyMds_idMat, applyMds_idMat])
      (fun s => by rw [applyMds_idMat, applyMds_idMat]) 0 sampleState⟩

/-- C3: walking the inverse rounds backward from the state
{zero x4, targetPublicKey x4, zero x4} for rounds 6 down to 0 and then
applying the forward rounds 0 through 6 reproduces that state exactly, so
the fabricated cycle-0 lane ends with the target public key exposed in
positions 4..7.  Stated for every mixing matrix with inverse and all round
constant tables. -/
theorem backward_walk_sound (M Minv : Mat12) (ARK1 ARK2 : Fin 7 → State12)
    (hMinv : ∀ s : State12, applyMds M (applyMds Minv s) = s) (pk : Fin 4 → F) :
    fwdRounds M ARK1 ARK2 7 (fabricatedPreimage Minv ARK1 ARK2 pk) = targetState pk ∧
    (∀ k : Fin 4,
      fwdRounds M ARK1 ARK2 7 (fabricatedPreimage Minv ARK1 ARK2 pk)
        ⟨4 + (k : ℕ), by have := k.isLt; omega⟩ = pk k) := by
  have h1 : fwdRounds M ARK1 ARK2 7 (fabricatedPreimage Minv ARK1 ARK2 pk) =
      targetState pk :=
    fwdRounds_invRounds M Minv ARK1 ARK2 hMinv 7 (targetState pk)
  exact ⟨h1, fun k => by rw [h1]; exact targetState_at pk k⟩

theorem backward_walk_sound_witness :
    (∀ s : State12, applyMds idMat (applyMds idMat s) = s) ∧
    (fwdRounds idMat zeroArk zeroArk 7
        (fabricatedPreimage idMat zeroArk zeroArk samplePk) = targetState samplePk ∧
      (∀ k : Fin 4,
        fwdRounds idMat zeroArk zeroArk 7
          (fabricatedPreimage idMat zeroArk zeroArk samplePk)
          ⟨4 + (k : ℕ), by have := k.isLt; omega⟩ = samplePk k)) :=
  ⟨fun s => by rw [applyMds_idMat, applyMds_idMat],
    backward_walk_sound idMat idMat zeroArk zeroArk
      (fun s => by rw [applyMds_idMat, applyMds_idMat]) samplePk⟩

/-! ### The 25-column execution trace built by forge_signal -/

/-- Columns 0..11 of a trace row, the sub-state the source calls
trace_state[..12] (the lane that hashes the key and walks the Merkle path). -/
def subA (s : State25) : State12 := fun i => s ⟨(i : ℕ), by have := i.isLt; omega⟩

/-- Columns 12..23 of a trace row, the sub-state the source calls
trace_state[12..24] (the lane whose row-7 output is the signal nullifier). -/
def subB (s : State25) : State12 := fun i => s ⟨(i : ℕ) + 12, by have := i.isLt; omega⟩

/-- Assembling a 25-column row from the two 12-element lanes and the value
of the technical column 24. -/
def joinState (a b : State12) (t : F) : State25 := fun i =>
  if h : (i : ℕ) < 12 then a ⟨(i : ℕ), h⟩
  else if h2 : (i : ℕ) < 24 then b ⟨(i : ℕ) - 12, by omega⟩
  else t

theorem subA_joinState (a b : State12) (t : F) : subA (joinState a b t) = a := by
  funext i
  have := i.isLt
  simp only [subA, joinState]
  rw [dif_pos (by omega)]

theorem subB_joinState (a b : State12) (t : F) : subB (joinState a b t) = b := by
  funext i
  have := i.isLt
  simp only [subB, joinState]
  rw [dif_neg (by omega), dif_pos (by omega)]
  exact congrArg b (Fin.ext (show (i : ℕ) + 12 - 12 = (i : ℕ) by omega))

theorem joinState_24 (a b : State12) (t : F) :
    joinState a b t ⟨24, by omega⟩ = t := by
  simp only [joinState]
  rw [dif_neg (by omega), dif_neg (by omega)]

/-- From src main.rs lines 96-99: the initial nullifier-lane (columns
12..23) pattern: 8 in column 12, zeros, the fabricated pre-image positions
4..7 in columns 16..19, the topic digest in columns 20..23. -/
def nullifierSeed (pre : State12) (th : Fin 4 → F) : State12 := fun i =>
  if (i : ℕ) = 0 then 8
  else if h : 4 ≤ (i : ℕ) ∧ (i : ℕ) < 8 then pre ⟨(i : ℕ), by omega⟩
  else if h2 : 8 ≤ (i : ℕ) ∧ (i : ℕ) < 12 then th ⟨(i : ℕ) - 8, by omega⟩
  else 0

/-- From src main.rs lines 92-100: row 0 of the trace: the fabricated
pre-image in columns 0..11, the nullifier seed in columns 12..23, zero in
column 24. -/
def initialTraceState (pre : State12) (th : Fin 4 → F) : State25 :=
  joinState pre (nullifierSeed pre th) 0

/-- From src main.rs lines 130-138: the re-seeded Merkle lane at a cycle
boundary: 8 in column 0, zeros in 1..3, the previous output carried in
4..7, the sibling digest in 8..11. -/
def merkleReseed (sib : Fin 4 → F) (s : State25) : State12 := fun i =>
  if (i : ℕ) = 0 then 8
  else if h : 4 ≤ (i : ℕ) ∧ (i : ℕ) < 8 then s ⟨(i : ℕ), by omega⟩
  else if h2 : 8 ≤ (i : ℕ) ∧ (i : ℕ) < 12 then sib ⟨(i : ℕ) - 8, by omega⟩
  else 0

/-- From src main.rs lines 139-145: the re-seeded nullifier lane at a cycle
boundary: all zeros except columns 16..19, which receive the Merkle lane
output carried in columns 4..7. -/
def nullifierReseed (s : State25) : State12 := fun i =>
  if h : 4 ≤ (i : ℕ) ∧ (i : ℕ) < 8 then s ⟨(i : ℕ), by omega⟩ else 0

/-- From src main.rs lines 129-146: the full re-seeded row at the start of
cycles 1..3. -/
def reseedState (sib : Fin 4 → F) (s : State25) : State25 :=
  joinState (merkleReseed sib s) (nullifierReseed s) 0

/-- From src main.rs lines 103-106 and 148-151: one in-cycle step applies
the rescue round to both 12-element lanes and leaves column 24 unchanged. -/
def stepRound (M : Mat12) (ARK1 ARK2 : Fin 7 → State12) (r : Fin 7)
    (s : State25) : State25 :=
  joinState (apply_rescue_round M ARK1 ARK2 r (subA s))
    (apply_rescue_round M ARK1 ARK2 r (subB s)) (s ⟨24, by omega⟩)

/-- The row state after j rounds within one cycle (row base + j holds
cycleRow j applied to the cycle's initial row state). -/
def cycleRow (M : Mat12) (ARK1 ARK2 : Fin 7 → State12) : ℕ → State25 → State25
  | 0, s => s
  | j + 1, s =>
    if h : j < 7 then stepRound M ARK1 ARK2 ⟨j, h⟩ (cycleRow M ARK1 ARK2 j s)
    else cycleRow M ARK1 ARK2 j s

/-- The initial row state of each of the 4 cycles: cycle 0 is seeded from
the fabricated pre-image and the topic digest (src lines 92-100); cycle
c+1 re-seeds the state left after the 7 rounds of cycle c, injecting the
sibling digest sib (c+1) (src lines 129-146). -/
def cycleStart (M Minv : Mat12) (ARK1 ARK2 : Fin 7 → State12) (pk th : Fin 4 → F)
    (sib : ℕ → Fin 4 → F) : ℕ → State25
  | 0 => initialTraceState (fabricatedPreimage Minv ARK1 ARK2 pk) th
  | c + 1 =>
    reseedState (sib (c + 1))
      (cycleRow M ARK1 ARK2 7 (cycleStart M Minv ARK1 ARK2 pk th sib c))

/-- The value written to trace row n (n = 8 * cycle + round offset). -/
def traceRowValue (M Minv : Mat12) (ARK1 ARK2 : Fin 7 → State12) (pk th : Fin 4 → F)
    (sib : ℕ → Fin 4 → F) (n : ℕ) : State25 :=
  cycleRow M ARK1 ARK2 (n % 8) (cycleStart M Minv ARK1 ARK2 pk th sib (n / 8))

/-- The 32 x 25 trace table (`TraceTable::new(25, 32)` is zero filled). -/
abbrev Table : Type := Fin 32 → Fin 25 → F

def emptyTable : Table := fun _ _ => 0

/-- `trace.update_row(r, s)` -/
def updateRow (t : Table) (r : ℕ) (s : State25) : Table :=
  fun i j => if (i : ℕ) = r then s j else t i j

/-- `trace.set(col, row, v)` (winterfell's argument order is column, step). -/
def setCell (t : Table) (col row : ℕ) (v : F) : Table :=
  fun i j => if (i : ℕ) = row ∧ (j : ℕ) = col then v else t i j

/-- From src main.rs lines 88-158: the trace built by forge_signal: rows
0..31 written in order via update_row, then the single technical cell
(column 24, row 1) set to one. -/
def builtTable (M Minv : Mat12) (ARK1 ARK2 : Fin 7 → State12) (pk th : Fin 4 → F)
    (sib : ℕ → Fin 4 → F) : Table :=
  setCell
    ((List.range 32).foldl
      (fun t n => updateRow t n (traceRowValue M Minv ARK1 ARK2 pk th sib n))
      emptyTable)
    24 1 1

theorem foldl_updateRow (f : ℕ → State25) (l : List ℕ) (t : Table)
    (i : Fin 32) (j : Fin 25) :
    (l.foldl (fun t n => updateRow t n (f n)) t) i j =
      if (i : ℕ) ∈ l then f (i : ℕ) j else t i j := by
  induction l generalizing t with
  | nil => simp
  | cons x xs ih =>
    simp only [List.foldl_cons, ih, List.mem_cons]
    by_cases hx : (i : ℕ) ∈ xs
    · rw [if_pos hx, if_pos (Or.inr hx)]
    · rw [if_neg hx]
      by_cases hix : (i : ℕ) = x
      · rw [if_pos (Or.inl hix)]
        simp [updateRow, hix]
      · rw [if_neg (by tauto)]
        simp [updateRow, hix]

theorem val_of_mk (n a : ℕ) (h : a < n) : ((⟨a, h⟩ : Fin n) : ℕ) = a := rfl

theorem builtTable_apply (M Minv : Mat12) (ARK1 ARK2 : Fin 7 → State12)
    (pk th : Fin 4 → F) (sib : ℕ → Fin 4 → F) (i : Fin 32) (j : Fin 25) :
    builtTable M Minv ARK1 ARK2 pk th sib i j =
      if (i : ℕ) = 1 ∧ (j : ℕ) = 24 then 1
      else traceRowValue M Minv ARK1 ARK2 pk th sib (i : ℕ) j := by
  unfold builtTable setCell
  rw [foldl_updateRow]
  have hm : (i : ℕ) ∈ List.range 32 := List.mem_range.mpr i.isLt
  rw [if_pos hm]

theorem traceRowValue_step (M Minv : Mat12) (ARK1 ARK2 : Fin 7 → State12)
    (pk th : Fin 4 → F) (sib : ℕ → Fin 4 → F) (c j : ℕ) (hj : j < 7) :
    traceRowValue M Minv ARK1 ARK2 pk th sib (8 * c + j + 1) =
      stepRound M ARK1 ARK2 ⟨j, hj⟩
        (traceRowValue M Minv ARK1 ARK2 pk th sib (8 * c + j)) := by
  unfold traceRowValue
  have h1 : (8 * c + j + 1) % 8 = j + 1 := by omega
  have h2 : (8 * c + j + 1) / 8 = c := by omega
  have h3 : (8 * c + j) % 8 = j := by omega
  have h4 : (8 * c + j) / 8 = c := by omega
  rw [h1, h2, h3, h4]
  simp only [cycleRow]
  rw [dif_pos hj]

theorem subA_cycleRow (M : Mat12) (ARK1 ARK2 : Fin 7 → State12) (n : ℕ)
    (s : State25) :
    subA (cycleRow M ARK1 ARK2 n s) = fwdRounds M ARK1 ARK2 n (subA s) := by
  induction n with
  | zero => rfl
  | succ n ih =>
    by_cases h : n < 7
    · simp only [cycleRow, fwdRounds, dif_pos h, stepRound, subA_joinState, ih]
    · simp only [cycleRow, fwdRounds, dif_neg h]
      exact ih

theorem subB_cycleRow (M : Mat12) (ARK1 ARK2 : Fin 7 → State12) (n : ℕ)
    (s : State25) :
    subB (cycleRow M ARK1 ARK2 n s) = fwdRounds M ARK1 ARK2 n (subB s) := by
  induction n with
  | zero => rfl
  | succ n ih =>
    by_cases h : n < 7
    · simp only [cycleRow, fwdRounds, dif_pos h, stepRound, subB_joinState, ih]
    · simp only [cycleRow, fwdRounds, dif_neg h]
      exact ih

theorem cycleRow_24 (M : Mat12) (ARK1 ARK2 : Fin 7 → State12) (n : ℕ)
    (s : State25) :
    cycleRow M ARK1 ARK2 n s ⟨24, by omega⟩ = s ⟨24, by omega⟩ := by
  induction n with
  | zero => rfl
  | succ n ih =>
    by_cases h : n < 7
    · simp only [cycleRow, dif_pos h, stepRound, joinState_24]
      exact ih
    · simp only [cycleRow, dif_neg h]
      exact ih

theorem cycleStart_24 (M Minv : Mat12) (ARK1 ARK2 : Fin 7 → State12)
    (pk th : Fin 4 → F) (sib : ℕ → Fin 4 → F) (c : ℕ) :
    cycleStart M Minv ARK1 ARK2 pk th sib c ⟨24, by omega⟩ = 0 := by
  cases c with
  | zero =>
    simp only [cycleStart, initialTraceState]
    exact joinState_24 _ _ _
  | succ c =>
    simp only [cycleStart, reseedState]
    exact joinState_24 _ _ _

theorem subA_builtTable (M Minv : Mat12) (ARK1 ARK2 : Fin 7 → State12)
    (pk th : Fin 4 → F) (sib : ℕ → Fin 4 → F) (i : Fin 32) :
    subA (builtTable M Minv ARK1 ARK2 pk th sib i) =
      subA (traceRowValue M Minv ARK1 ARK2 pk th sib (i : ℕ)) := by
  funext k
  have hk := k.isLt
  simp only [subA]
  rw [builtTable_apply]
  rw [if_neg (fun hc => by
    have h2 : (k : ℕ) = 24 := hc.2
    omega)]

theorem subB_builtTable (M Minv : Mat12) (ARK1 ARK2 : Fin 7 → State12)
    (pk th : Fin 4 → F) (sib : ℕ → Fin 4 → F) (i : Fin 32) :
    subB (builtTable M Minv ARK1 ARK2 pk th sib i) =
      subB (traceRowValue M Minv ARK1 ARK2 pk th sib (i : ℕ)) := by
  funext k
  have hk := k.isLt
  simp only [subB]
  rw [builtTable_apply]
  rw [if_neg (fun hc => by
    have h2 : (k : ℕ) + 12 = 24 := hc.2
    omega)]

/-- From src main.rs lines 102-115: the nullifier saved into the returned
Signal: columns 16..19 of the row state after the 7 rounds of cycle 0
(computed before the trace rows of cycles 1..3 are filled). -/
def forgedNullifier (M Minv : Mat12) (ARK1 ARK2 : Fin 7 → State12)
    (pk th : Fin 4 → F) : Fin 4 → F := fun k =>
  cycleRow M ARK1 ARK2 7
    (initialTraceState (fabricatedPreimage Minv ARK1 ARK2 pk) th)
    ⟨16 + (k : ℕ), by have := k.isLt; omega⟩

/-- C6: the built trace is a 32-row, 25-column table (the type of
builtTable) in 4 cycles of 8 rows; inside every cycle, row 8c+r+1
restricted to each of the two 12-element sub-states (columns 0..11 and
12..23) is exactly one rescue round applied to the same sub-state of row
8c+r, and the column outside the two sub-states is zero at every cycle
boundary row 8c. -/
theorem trace_cycle_round_structure (M Minv : Mat12) (ARK1 ARK2 : Fin 7 → State12)
    (pk th : Fin 4 → F) (sib : ℕ → Fin 4 → F) (c : Fin 4) (r : Fin 7) :
    subA (builtTable M Minv ARK1 ARK2 pk th sib
        ⟨8 * (c : ℕ) + (r : ℕ) + 1, by have := c.isLt; have := r.isLt; omega⟩) =
      apply_rescue_round M ARK1 ARK2 r
        (subA (builtTable M Minv ARK1 ARK2 pk th sib
          ⟨8 * (c : ℕ) + (r : ℕ), by have := c.isLt; have := r.isLt; omega⟩)) ∧
    subB (builtTable M Minv ARK1 ARK2 pk th sib
        ⟨8 * (c : ℕ) + (r : ℕ) + 1, by have := c.isLt; have := r.isLt; omega⟩) =
      apply_rescue_round M ARK1 ARK2 r
        (subB (builtTable M Minv ARK1 ARK2 pk th sib
          ⟨8 * (c : ℕ) + (r : ℕ), by have := c.isLt; have := r.isLt; omega⟩)) ∧
    builtTable M Minv ARK1 ARK2 pk th sib
        ⟨8 * (c : ℕ), by have := c.isLt; omega⟩ ⟨24, by omega⟩ = 0 := by
  have hr := r.isLt
  refine ⟨?_, ?_, ?_⟩
  · rw [subA_builtTable, subA_builtTable]
    show subA (traceRowValue M Minv ARK1 ARK2 pk th sib (8 * (c : ℕ) + (r : ℕ) + 1)) =
      apply_rescue_round M ARK1 ARK2 r
        (subA (traceRowValue M Minv ARK1 ARK2 pk th sib (8 * (c : ℕ) + (r : ℕ))))
    rw [traceRowValue_step M Minv ARK1 ARK2 pk th sib (c : ℕ) (r : ℕ) hr]
    simp only [stepRound, subA_joinState]
  · rw [subB_builtTable, subB_builtTable]
    show subB (traceRowValue M Minv ARK1 ARK2 pk th sib (8 * (c : ℕ) + (r : ℕ) + 1)) =
      apply_rescue_round M ARK1 ARK2 r
        (subB (traceRowValue M Minv ARK1 ARK2 pk th sib (8 * (c : ℕ) + (r : ℕ))))
    rw [traceRowValue_step M Minv ARK1 ARK2 pk th sib (c : ℕ) (r : ℕ) hr]
    simp only [stepRound, subB_joinState]
  · rw [builtTable_apply]
    rw [if_neg (fun hc => by
      have h1 : 8 * (c : ℕ) = 1 := hc.1
      omega)]
    unfold traceRowValue
    have h1 : 8 * (c : ℕ) % 8 = 0 := by omega
    have h2 : 8 * (c : ℕ) / 8 = (c : ℕ) := by omega
    rw [h1, h2]
    exact cycleStart_24 M Minv ARK1 ARK2 pk th sib (c : ℕ)

/-- C10: the nullifier placed in the forged Signal equals the 4 field
elements at columns 16..19 of row 7 of the final built trace: the filling
of rows 8..31 for cycles 1..3 and the technical cell write at (column 24,
row 1) leave that value unchanged. -/
theorem nullifier_frame (M Minv : Mat12) (ARK1 ARK2 : Fin 7 → State12)
    (pk th : Fin 4 → F) (sib : ℕ → Fin 4 → F) (k : Fin 4) :
    builtTable M Minv ARK1 ARK2 pk th sib ⟨7, by omega⟩
        ⟨16 + (k : ℕ), by have := k.isLt; omega⟩ =
      forgedNullifier M Minv ARK1 ARK2 pk th k := by
  rw [builtTable_apply]
  rw [if_neg (fun hc => by
    have h1 : (7 : ℕ) = 1 := hc.1
    omega)]
  rfl

theorem builtTable_row0 (M Minv : Mat12) (ARK1 ARK2 : Fin 7 → State12)
    (pk th : Fin 4 → F) (sib : ℕ → Fin 4 → F) (j : Fin 25) :
    builtTable M Minv ARK1 ARK2 pk th sib ⟨0, by omega⟩ j =
      initialTraceState (fabricatedPreimage Minv ARK1 ARK2 pk) th j := by
  rw [builtTable_apply]
  rw [if_neg (fun hc => by
    have h1 : (0 : ℕ) = 1 := hc.1
    omega)]
  rfl

theorem builtTable_cycleBoundary (M Minv : Mat12) (ARK1 ARK2 : Fin 7 → State12)
    (pk th : Fin 4 → F) (sib : ℕ → Fin 4 → F) (c : ℕ) (hc : c < 3) (j : Fin 25) :
    builtTable M Minv ARK1 ARK2 pk th sib ⟨8 * (c + 1), by omega⟩ j =
      reseedState (sib (c + 1))
        (cycleRow M ARK1 ARK2 7 (cycleStart M Minv ARK1 ARK2 pk th sib c)) j := by
  rw [builtTable_apply]
  rw [if_neg (fun hcon => by
    have h1 : 8 * (c + 1) = 1 := hcon.1
    omega)]
  unfold traceRowValue
  have h1 : 8 * (c + 1) % 8 = 0 := by omega
  have h2 : 8 * (c + 1) / 8 = c + 1 := by omega
  rw [h1, h2]
  rfl

theorem builtTable_cycleLastRow (M Minv : Mat12) (ARK1 ARK2 : Fin 7 → State12)
    (pk th : Fin 4 → F) (sib : ℕ → Fin 4 → F) (c : ℕ) (hc : c < 4) (j : Fin 25)
    (hj : (j : ℕ) ≠ 24) :
    builtTable M Minv ARK1 ARK2 pk th sib ⟨8 * c + 7, by omega⟩ j =
      cycleRow M ARK1 ARK2 7 (cycleStart M Minv ARK1 ARK2 pk th sib c) j := by
  rw [builtTable_apply]
  rw [if_neg (fun hcon => hj hcon.2)]
  unfold traceRowValue
  have h1 : (8 * c + 7) % 8 = 7 := by omega
  have h2 : (8 * c + 7) / 8 = c := by omega
  rw [h1, h2]

/-- C4 (amended): in row 0 of the built trace, columns 0..11 (the lane that
later walks the Merkle path) hold the full fabricated pre-image; column 12
holds the constant 8; columns 13..15 hold zero; columns 16..19 (in the lane
whose output is the nullifier) hold positions 4..7 of the fabricated
pre-image, playing the role of the private key; columns 20..23 hold the
topic digest; column 24 holds zero. -/
theorem cycle0_seeding_layout (M Minv : Mat12) (ARK1 ARK2 : Fin 7 → State12)
    (pk th : Fin 4 → F) (sib : ℕ → Fin 4 → F) :
    (∀ i : Fin 12, builtTable M Minv ARK1 ARK2 pk th sib ⟨0, by omega⟩
        ⟨(i : ℕ), by have := i.isLt; omega⟩ = fabricatedPreimage Minv ARK1 ARK2 pk i) ∧
    builtTable M Minv ARK1 ARK2 pk th sib ⟨0, by omega⟩ ⟨12, by omega⟩ = 8 ∧
    (∀ k : Fin 3, builtTable M Minv ARK1 ARK2 pk th sib ⟨0, by omega⟩
        ⟨13 + (k : ℕ), by have := k.isLt; omega⟩ = 0) ∧
    (∀ k : Fin 4, builtTable M Minv ARK1 ARK2 pk th sib ⟨0, by omega⟩
        ⟨16 + (k : ℕ), by have := k.isLt; omega⟩ =
      fabricatedPreimage Minv ARK1 ARK2 pk ⟨4 + (k : ℕ), by have := k.isLt; omega⟩) ∧
    (∀ k : Fin 4, builtTable M Minv ARK1 ARK2 pk th sib ⟨0, by omega⟩
        ⟨20 + (k : ℕ), by have := k.isLt; omega⟩ = th k) ∧
    builtTable M Minv ARK1 ARK2 pk th sib ⟨0, by omega⟩ ⟨24, by omega⟩ = 0 := by
  refine ⟨?_, ?_, ?_, ?_, ?_, ?_⟩
  · intro i
    rw [builtTable_row0]
    simp only [initialTraceState, joinState]
    split
    · rfl
    · next h => exact absurd i.isLt h
  · rw [builtTable_row0]
    rfl
  · intro k
    fin_cases k <;> (rw [builtTable_row0]; rfl)
  · intro k
    fin_cases k <;> (rw [builtTable_row0]; rfl)
  · intro k
    fin_cases k <;> (rw [builtTable_row0]; rfl)
  · rw [builtTable_row0]
    rfl

/-- C5 (amended): for each cycle c+1 with c in 0..2, the cycle's initial
row 8*(c+1) sets column 0 to 8 and columns 1..3 to zero (the selector/zero
region of the Merkle-walking lane, columns 0..11), injects the sibling
digest for that cycle at columns 8..11, carries the Merkle lane's running
digest (columns 4..7 of row 8*c+7) forward unchanged in columns 4..7, and
zeroes the nullifier lane except columns 16..19, which receive a copy of
that same Merkle-lane output (columns 4..7 of the previous row), not the
previous nullifier-lane output: the Merkle-path walk, not the nullifier
derivation, is chained across the cycles. -/
theorem cycle_reseed_layout (M Minv : Mat12) (ARK1 ARK2 : Fin 7 → State12)
    (pk th : Fin 4 → F) (sib : ℕ → Fin 4 → F) (c : Fin 3) :
    builtTable M Minv ARK1 ARK2 pk th sib
        ⟨8 * ((c : ℕ) + 1), by have := c.isLt; omega⟩ ⟨0, by omega⟩ = 8 ∧
    (∀ k : Fin 3, builtTable M Minv ARK1 ARK2 pk th sib
        ⟨8 * ((c : ℕ) + 1), by have := c.isLt; omega⟩
        ⟨1 + (k : ℕ), by have := k.isLt; omega⟩ = 0) ∧
    (∀ k : Fin 4, builtTable M Minv ARK1 ARK2 pk th sib
        ⟨8 * ((c : ℕ) + 1), by have := c.isLt; omega⟩
        ⟨4 + (k : ℕ), by have := k.isLt; omega⟩ =
      builtTable M Minv ARK1 ARK2 pk th sib
        ⟨8 * (c : ℕ) + 7, by have := c.isLt; omega⟩
        ⟨4 + (k : ℕ), by have := k.isLt; omega⟩) ∧
    (∀ k : Fin 4, builtTable M Minv ARK1 ARK2 pk th sib
        ⟨8 * ((c : ℕ) + 1), by have := c.isLt; omega⟩
        ⟨8 + (k : ℕ), by have := k.isLt; omega⟩ = sib ((c : ℕ) + 1) k) ∧
    (∀ k : Fin 4, builtTable M Minv ARK1 ARK2 pk th sib
        ⟨8 * ((c : ℕ) + 1), by have := c.isLt; omega⟩
        ⟨12 + (k : ℕ), by have := k.isLt; omega⟩ = 0) ∧
    (∀ k : Fin 4, builtTable M Minv ARK1 ARK2 pk th sib
        ⟨8 * ((c : ℕ) + 1), by have := c.isLt; omega⟩
        ⟨16 + (k : ℕ), by have := k.isLt; omega⟩ =
      builtTable M Minv ARK1 ARK2 pk th sib
        ⟨8 * (c : ℕ) + 7, by have := c.isLt; omega⟩
        ⟨4 + (k : ℕ), by have := k.isLt; omega⟩) ∧
    (∀ k : Fin 4, builtTable M Minv ARK1 ARK2 pk th sib
        ⟨8 * ((c : ℕ) + 1), by have := c.isLt; omega⟩
        ⟨20 + (k : ℕ), by have := k.isLt; omega⟩ = 0) ∧
    builtTable M Minv ARK1 ARK2 pk th sib
        ⟨8 * ((c : ℕ) + 1), by have := c.isLt; omega⟩ ⟨24, by omega⟩ = 0 := by
  have hc := c.isLt
  refine ⟨?_, ?_, ?_, ?_, ?_, ?_, ?_, ?_⟩
  · rw [builtTable_cycleBoundary M Minv ARK1 ARK2 pk th sib (c : ℕ) hc]
    rfl
  · intro k
    fin_cases k <;>
      (rw [builtTable_cycleBoundary M Minv ARK1 ARK2 pk th sib (c : ℕ) hc]; rfl)
  · intro k
    have hk := k.isLt
    have hj : ((⟨4 + (k : ℕ), by omega⟩ : Fin 25) : ℕ) ≠ 24 := by
      intro h
      have h2 : 4 + (k : ℕ) = 24 := h
      omega
    rw [builtTable_cycleBoundary M Minv ARK1 ARK2 pk th sib (c : ℕ) hc,
      builtTable_cycleLastRow M Minv ARK1 ARK2 pk th sib (c : ℕ) (by omega) _ hj]
    fin_cases k <;> rfl
  · intro k
    fin_cases k <;>
      (rw [builtTable_cycleBoundary M Minv ARK1 ARK2 pk th sib (c : ℕ) hc]; rfl)
  · intro k
    fin_cases k <;>
      (rw [builtTable_cycleBoundary M Minv ARK1 ARK2 pk th sib (c : ℕ) hc]; rfl)
  · intro k
    have hk := k.isLt
    have hj : ((⟨4 + (k : ℕ), by omega⟩ : Fin 25) : ℕ) ≠ 24 := by
      intro h
      have h2 : 4 + (k : ℕ) = 24 := h
      omega
    rw [builtTable_cycleBoundary M Minv ARK1 ARK2 pk th sib (c : ℕ) hc,
      builtTable_cycleLastRow M Minv ARK1 ARK2 pk th sib (c : ℕ) (by omega) _ hj]
    fin_cases k <;> rfl
  · intro k
    fin_cases k <;>
      (rw [builtTable_cycleBoundary M Minv ARK1 ARK2 pk th sib (c : ℕ) hc]; rfl)
  · rw [builtTable_cycleBoundary M Minv ARK1 ARK2 pk th sib (c : ℕ) hc]
    rfl

/-- C8 (amended): column 24 of the built trace is zero in every row except
row 1, where the single technical cell is set to one (per the source
comment, only so the constraint degree is not zero in debug mode); that
write changes no cell of the protocol columns 0..23, whose values are the
row states of the two permutation lanes. -/
theorem selector_column_layout (M Minv : Mat12) (ARK1 ARK2 : Fin 7 → State12)
    (pk th : Fin 4 → F) (sib : ℕ → Fin 4 → F) :
    (∀ i : Fin 32, builtTable M Minv ARK1 ARK2 pk th sib i ⟨24, by omega⟩ =
      if (i : ℕ) = 1 then 1 else 0) ∧
    (∀ (i : Fin 32) (j : Fin 24),
      builtTable M Minv ARK1 ARK2 pk th sib i ⟨(j : ℕ), by have := j.isLt; omega⟩ =
        traceRowValue M Minv ARK1 ARK2 pk th sib (i : ℕ)
          ⟨(j : ℕ), by have := j.isLt; omega⟩) := by
  constructor
  · intro i
    rw [builtTable_apply]
    by_cases hi : (i : ℕ) = 1
    · rw [if_pos ⟨hi, rfl⟩, if_pos hi]
    · rw [if_neg (fun hcon => hi hcon.1), if_neg hi]
      unfold traceRowValue
      exact (cycleRow_24 M ARK1 ARK2 ((i : ℕ) % 8) _).trans
        (cycleStart_24 M Minv ARK1 ARK2 pk th sib ((i : ℕ) / 8))
  · intro i j
    rw [builtTable_apply]
    rw [if_neg (fun hcon => by
      have := j.isLt
      have h2 : (j : ℕ) = 24 := hcon.2
      omega)]

/-! ### Concrete instances used by witnesses and counterexamples -/

/-- The all-zero 12-element state. -/
def zeroState : State12 := fun _ => 0

/-- The all-zero 4-element vector (public key, topic digest, sibling). -/
def zeroVec4 : Fin 4 → F := fun _ => 0

/-- The all-zero sibling sequence. -/
def zeroSib : ℕ → Fin 4 → F := fun _ _ => 0

/-- The all-one round constant table, a concrete instance. -/
def oneArk : Fin 7 → State12 := fun _ _ => 1

/-- A concrete invertible non-diagonal mixing matrix: identity plus one
shear entry (row 4, column 0). -/
def shearMat : Mat12 := fun i j =>
  if i = j then 1 else if (i : ℕ) = 4 ∧ (j : ℕ) = 0 then 1 else 0

/-- The inverse of shearMat. -/
def shearMatInv : Mat12 := fun i j =>
  if i = j then 1 else if (i : ℕ) = 4 ∧ (j : ℕ) = 0 then -1 else 0

/-- The concrete nullifier-lane seed (8, 0, ..., 0) arising when the
fabricated pre-image and the topic digest are all zero. -/
def eightE0 : State12 := fun i => if (i : ℕ) = 0 then 8 else 0

def uB1 : State12 := ![8, 0, 0, 0, 16, 0, 0, 0, 0, 0, 0, 0]
def uB2 : State12 := ![8, 0, 0, 0, 6900244497687151554, 0, 0, 0, 0, 0, 0, 0]
def uB3 : State12 := ![8, 0, 0, 0, 10479103136963222566, 0, 0, 0, 0, 0, 0, 0]
def uB4 : State12 := ![8, 0, 0, 0, 2096559592748385911, 0, 0, 0, 0, 0, 0, 0]
def uB5 : State12 := ![8, 0, 0, 0, 18100128873359053870, 0, 0, 0, 0, 0, 0, 0]
def uB6 : State12 := ![8, 0, 0, 0, 434962943155310073, 0, 0, 0, 0, 0, 0, 0]
def uB7 : State12 := ![8, 0, 0, 0, 15567132133510960999, 0, 0, 0, 0, 0, 0, 0]

theorem applyMds_zeroState (m : Mat12) : applyMds m zeroState = zeroState := by
  funext i
  simp [applyMds, zeroState]

theorem applySbox_zeroState : applySbox zeroState = zeroState := by decide

theorem applyInvSbox_zeroState : applyInvSbox zeroState = zeroState := by decide

theorem addConstants_zeroArk (r : Fin 7) (s : State12) :
    addConstants (zeroArk r) s = s :=
  funext fun i => add_zero (s i)

theorem subConstants_zeroArk (r : Fin 7) (s : State12) :
    subConstants (zeroArk r) s = s :=
  funext fun i => sub_zero (s i)

theorem round_zeroArk_zeroState (M : Mat12) (r : Fin 7) :
    apply_rescue_round M zeroArk zeroArk r zeroState = zeroState := by
  unfold apply_rescue_round
  simp only [applySbox_zeroState, applyMds_zeroState, addConstants_zeroArk,
    applyInvSbox_zeroState]

theorem inverse_round_zeroArk_zeroState (Minv : Mat12) (r : Fin 7) :
    inverse_rescue_round Minv zeroArk zeroArk r zeroState = zeroState := by
  unfold inverse_rescue_round
  simp only [subConstants_zeroArk, applyMds_zeroState, applySbox_zeroState,
    applyInvSbox_zeroState]

theorem invRounds_zeroState (Minv : Mat12) (n : ℕ) :
    invRounds Minv zeroArk zeroArk n zeroState = zeroState := by
  induction n with
  | zero => rfl
  | succ n ih =>
    by_cases h : n < 7
    · simp only [invRounds, dif_pos h, inverse_round_zeroArk_zeroState]
      exact ih
    · simp only [invRounds, dif_neg h]
      exact ih

theorem fwdRounds_zeroState (M : Mat12) (n : ℕ) :
    fwdRounds M zeroArk zeroArk n zeroState = zeroState := by
  induction n with
  | zero => rfl
  | succ n ih =>
    by_cases h : n < 7
    · simp only [fwdRounds, dif_pos h, ih, round_zeroArk_zeroState]
    · simp only [fwdRounds, dif_neg h]
      exact ih

theorem targetState_zeroVec4 : targetState zeroVec4 = zeroState := by
  funext i
  unfold targetState zeroVec4 zeroState
  split <;> rfl

theorem fabricatedPreimage_zero (Minv : Mat12) :
    fabricatedPreimage Minv zeroArk zeroArk zeroVec4 = zeroState := by
  unfold fabricatedPreimage
  rw [targetState_zeroVec4, invRounds_zeroState]

theorem fwdRounds_succ (M : Mat12) (ARK1 ARK2 : Fin 7 → State12) (n : ℕ)
    (h : n < 7) (s : State12) :
    fwdRounds M ARK1 ARK2 (n + 1) s =
      apply_rescue_round M ARK1 ARK2 ⟨n, h⟩ (fwdRounds M ARK1 ARK2 n s) := by
  simp only [fwdRounds, dif_pos h]

/-- C9: the inverse S-box exponent 10540996611094048183 used in the
backward walk is the modular inverse of the S-box exponent 7 modulo p - 1:
raising to 7 and then to 10540996611094048183 (and conversely) is the
identity on every element of the 64-bit base field, so the two maps are
mutually inverse bijections on F. -/
theorem sbox_exponents_inverse :
    (∀ x : F, fexp 64 (fexp 64 x 7) INV_ALPHA = x) ∧
    (∀ x : F, fexp 64 (fexp 64 x INV_ALPHA) 7 = x) ∧
    7 * INV_ALPHA % (P - 1) = 1 ∧
    Function.Bijective (fun x : F => fexp 64 x 7) ∧
    Function.Bijective (fun x : F => fexp 64 x INV_ALPHA) := by
  refine ⟨fexp_sbox_then_inv, fexp_inv_then_sbox, by norm_num [INV_ALPHA, P], ?_, ?_⟩
  · exact Function.bijective_iff_has_inverse.mpr
      ⟨fun x => fexp 64 x INV_ALPHA, fexp_sbox_then_inv, fexp_inv_then_sbox⟩
  · exact Function.bijective_iff_has_inverse.mpr
      ⟨fun x => fexp 64 x 7, fexp_inv_then_sbox, fexp_sbox_then_inv⟩

/-- C4 counterexample: at concrete parameter values, the claimed seeding of
the nullifier lane (columns 12..23 of row 0, the lane whose output is the
Signal's nullifier) with a zero 4-element capacity is false: column 12 of
row 0 holds the constant 8, not zero. -/
theorem cycle0_seeding_claim_refuted :
    ¬ (∀ k : Fin 4, builtTable idMat idMat zeroArk zeroArk samplePk zeroVec4 zeroSib
        ⟨0, by omega⟩ ⟨12 + (k : ℕ), by have := k.isLt; omega⟩ = 0) := by
  intro h
  have h0 := h 0
  have h8 : builtTable idMat idMat zeroArk zeroArk samplePk zeroVec4 zeroSib
      ⟨0, by omega⟩ ⟨12 + ((0 : Fin 4) : ℕ), by omega⟩ = 8 := by
    rw [builtTable_row0]
    rfl
  exact absurd (h8.symm.trans h0) (by decide)

/-- C8 counterexample: at concrete parameter values, the claim that column
24 is a constant-nonzero column is false: in the built trace, row 0 of
column 24 is zero (only the single cell in row 1 is set to one). -/
theorem selector_column_claim_refuted :
    ¬ (∀ i : Fin 32, builtTable idMat idMat zeroArk zeroArk samplePk zeroVec4 zeroSib
        i ⟨24, by omega⟩ ≠ 0) := by
  intro h
  refine h ⟨0, by omega⟩ ?_
  rw [builtTable_row0]
  rfl

set_option maxRecDepth 400000 in
/-- C5 counterexample: at concrete parameter values (a mixing matrix with a
single shear entry, zero round constants, zero key and topic), row 8 of the
built trace does not carry the previous cycle's nullifier-lane output
forward: column 16 of row 8 is 0 (a copy of column 4 of row 7, the Merkle
lane output), while column 16 of row 7 (the nullifier-lane output) is
15567132133510960999. -/
theorem cycle_reseed_claim_refuted :
    ¬ (∀ k : Fin 4,
      builtTable shearMat shearMatInv zeroArk zeroArk zeroVec4 zeroVec4 zeroSib
          ⟨8, by omega⟩ ⟨16 + (k : ℕ), by have := k.isLt; omega⟩ =
        builtTable shearMat shearMatInv zeroArk zeroArk zeroVec4 zeroVec4 zeroSib
          ⟨7, by omega⟩ ⟨16 + (k : ℕ), by have := k.isLt; omega⟩) := by
  intro h
  have h0 := h 0
  have hL : builtTable shearMat shearMatInv zeroArk zeroArk zeroVec4 zeroVec4 zeroSib
      ⟨8, by omega⟩ ⟨16 + ((0 : Fin 4) : ℕ), by omega⟩ = 0 := by
    rw [builtTable_apply]
    rw [if_neg (fun hc => by
      have h1 : (8 : ℕ) = 1 := hc.1
      omega)]
    show subA (cycleRow shearMat zeroArk zeroArk 7
        (cycleStart shearMat shearMatInv zeroArk zeroArk zeroVec4 zeroVec4 zeroSib 0))
        ⟨4, by omega⟩ = 0
    rw [subA_cycleRow]
    have hA : subA (cycleStart shearMat shearMatInv zeroArk zeroArk
        zeroVec4 zeroVec4 zeroSib 0) = zeroState := by
      show subA (joinState (fabricatedPreimage shearMatInv zeroArk zeroArk zeroVec4)
        (nullifierSeed (fabricatedPreimage shearMatInv zeroArk zeroArk zeroVec4)
          zeroVec4) 0) = zeroState
      rw [subA_joinState, fabricatedPreimage_zero]
    rw [hA, fwdRounds_zeroState]
    rfl
  have hR : builtTable shearMat shearMatInv zeroArk zeroArk zeroVec4 zeroVec4 zeroSib
      ⟨7, by omega⟩ ⟨16 + ((0 : Fin 4) : ℕ), by omega⟩ = uB7 ⟨4, by omega⟩ := by
    rw [builtTable_apply]
    rw [if_neg (fun hc => by
      have h1 : (7 : ℕ) = 1 := hc.1
      omega)]
    show subB (cycleRow shearMat zeroArk zeroArk 7
        (cycleStart shearMat shearMatInv zeroArk zeroArk zeroVec4 zeroVec4 zeroSib 0))
        ⟨4, by omega⟩ = uB7 ⟨4, by omega⟩
    rw [subB_cycleRow]
    have hB : subB (cycleStart shearMat shearMatInv zeroArk zeroArk
        zeroVec4 zeroVec4 zeroSib 0) = eightE0 := by
      show subB (joinState (fabricatedPreimage shearMatInv zeroArk zeroArk zeroVec4)
        (nullifierSeed (fabricatedPreimage shearMatInv zeroArk zeroArk zeroVec4)
          zeroVec4) 0) = eightE0
      rw [subB_joinState, fabricatedPreimage_zero]
      decide
    rw [hB]
    have e1 : apply_rescue_round shearMat zeroArk zeroArk ⟨0, by omega⟩ eightE0 = uB1 := by
      decide
    have e2 : apply_rescue_round shearMat zeroArk zeroArk ⟨1, by omega⟩ uB1 = uB2 := by
      decide
    have e3 : apply_rescue_round shearMat zeroArk zeroArk ⟨2, by omega⟩ uB2 = uB3 := by
      decide
    have e4 : apply_rescue_round shearMat zeroArk zeroArk ⟨3, by omega⟩ uB3 = uB4 := by
      decide
    have e5 : apply_rescue_round shearMat zeroArk zeroArk ⟨4, by omega⟩ uB4 = uB5 := by
      decide
    have e6 : apply_rescue_round shearMat zeroArk zeroArk ⟨5, by omega⟩ uB5 = uB6 := by
      decide
    have e7 : apply_rescue_round shearMat zeroArk zeroArk ⟨6, by omega⟩ uB6 = uB7 := by
      decide
    have s1 : fwdRounds shearMat zeroArk zeroArk 1 eightE0 = uB1 := by
      rw [fwdRounds_succ shearMat zeroArk zeroArk 0 (by omega) eightE0]
      exact e1
    have s2 : fwdRounds shearMat zeroArk zeroArk 2 eightE0 = uB2 := by
      rw [fwdRounds_succ shearMat zeroArk zeroArk 1 (by omega) eightE0, s1]
      exact e2
    have s3 : fwdRounds shearMat zeroArk zeroArk 3 eightE0 = uB3 := by
      rw [fwdRounds_succ shearMat zeroArk zeroArk 2 (by omega) eightE0, s2]
      exact e3
    have s4 : fwdRounds shearMat zeroArk zeroArk 4 eightE0 = uB4 := by
      rw [fwdRounds_succ shearMat zeroArk zeroArk 3 (by omega) eightE0, s3]
      exact e4
    have s5 : fwdRounds shearMat zeroArk zeroArk 5 eightE0 = uB5 := by
      rw [fwdRounds_succ shearMat zeroArk zeroArk 4 (by omega) eightE0, s4]
      exact e5
    have s6 : fwdRounds shearMat zeroArk zeroArk 6 eightE0 = uB6 := by
      rw [fwdRounds_succ shearMat zeroArk zeroArk 5 (by omega) eightE0, s5]
      exact e6
    have s7 : fwdRounds shearMat zeroArk zeroArk 7 eightE0 = uB7 := by
      rw [fwdRounds_succ shearMat zeroArk zeroArk 6 (by omega) eightE0, s6]
      exact e7
    rw [s7]
  exact absurd (hL.symm.trans (h0.trans hR)) (by decide)

/-! ### Merkle tree over the public keys (src main.rs lines 117-126) -/

/-- Modelled from the spec: the sponge digest of a 4-element input: absorb
into rate positions 4..7 of a 12-element state with the absorbed length in
capacity column 0, run the 7 rounds, squeeze positions 4..7.  The concrete
hash (winterfell's Rp64_256) is not under src. -/
def spongeSeed4 (inp : Fin 4 → F) : State12 := fun i =>
  if (i : ℕ) = 0 then 4
  else if h : 4 ≤ (i : ℕ) ∧ (i : ℕ) < 8 then inp ⟨(i : ℕ) - 4, by omega⟩
  else 0

/-- Modelled from the spec: Digest of a 4-element vector via one
permutation call. -/
def spongeDigest4 (M : Mat12) (ARK1 ARK2 : Fin 7 → State12)
    (inp : Fin 4 → F) : Fin 4 → F := fun k =>
  fwdRounds M ARK1 ARK2 7 (spongeSeed4 inp) ⟨4 + (k : ℕ), by have := k.isLt; omega⟩

/-- Modelled from the spec: the sponge state absorbing two digests (8
elements), as in the Merkle lane layout (8, 0, 0, 0, current, sibling). -/
def spongeSeed8 (a b : Fin 4 → F) : State12 := fun i =>
  if (i : ℕ) = 0 then 8
  else if h : 4 ≤ (i : ℕ) ∧ (i : ℕ) < 8 then a ⟨(i : ℕ) - 4, by omega⟩
  else if h2 : 8 ≤ (i : ℕ) ∧ (i : ℕ) < 12 then b ⟨(i : ℕ) - 8, by omega⟩
  else 0

/-- Modelled from the spec: hashing a (current, sibling) pair of digests
into the parent digest. -/
def mergeDigests (M : Mat12) (ARK1 ARK2 : Fin 7 → State12)
    (a b : Fin 4 → F) : Fin 4 → F := fun k =>
  fwdRounds M ARK1 ARK2 7 (spongeSeed8 a b) ⟨4 + (k : ℕ), by have := k.isLt; omega⟩

/-- From src main.rs lines 118-121: each Merkle leaf is the public key's 4
elements used directly as a digest (Digest::new(p.elements()) wraps the
elements; no hash is applied). -/
def merkleLeaf (pks : Fin 8 → Fin 4 → F) (i : Fin 8) : Fin 4 → F := pks i

/-- The index of the sibling node at one tree level. -/
def sibIdx (n : ℕ) : ℕ := if n % 2 = 0 then n + 1 else n - 1

/-- Level-1 internal nodes of the 8-leaf tree. -/
def level1 (M : Mat12) (ARK1 ARK2 : Fin 7 → State12) (pks : Fin 8 → Fin 4 → F)
    (j : Fin 4) : Fin 4 → F :=
  mergeDigests M ARK1 ARK2
    (merkleLeaf pks ⟨2 * (j : ℕ), by have := j.isLt; omega⟩)
    (merkleLeaf pks ⟨2 * (j : ℕ) + 1, by have := j.isLt; omega⟩)

/-- Level-2 internal nodes of the 8-leaf tree. -/
def level2 (M : Mat12) (ARK1 ARK2 : Fin 7 → State12) (pks : Fin 8 → Fin 4 → F)
    (j : Fin 2) : Fin 4 → F :=
  mergeDigests M ARK1 ARK2
    (level1 M ARK1 ARK2 pks ⟨2 * (j : ℕ), by have := j.isLt; omega⟩)
    (level1 M ARK1 ARK2 pks ⟨2 * (j : ℕ) + 1, by have := j.isLt; omega⟩)

/-- The root of the 8-leaf tree. -/
def treeRoot (M : Mat12) (ARK1 ARK2 : Fin 7 → State12)
    (pks : Fin 8 → Fin 4 → F) : Fin 4 → F :=
  mergeDigests M ARK1 ARK2 (level2 M ARK1 ARK2 pks ⟨0, by omega⟩)
    (level2 M ARK1 ARK2 pks ⟨1, by omega⟩)

/-- Modelled from the spec: the membership path for a leaf index in the
8-leaf tree: the leaf's digest followed by the sibling digest at each of
the 3 levels (an ordered sequence of height + 1 = 4 digests). -/
def merklePath (M : Mat12) (ARK1 ARK2 : Fin 7 → State12)
    (pks : Fin 8 → Fin 4 → F) (idx : Fin 8) : List (Fin 4 → F) :=
  [merkleLeaf pks idx,
   merkleLeaf pks ⟨sibIdx (idx : ℕ), by
     have := idx.isLt
     unfold sibIdx
     split <;> omega⟩,
   level1 M ARK1 ARK2 pks ⟨sibIdx ((idx : ℕ) / 2), by
     have := idx.isLt
     unfold sibIdx
     split <;> omega⟩,
   level2 M ARK1 ARK2 pks ⟨sibIdx ((idx : ℕ) / 4), by
     have := idx.isLt
     unfold sibIdx
     split <;> omega⟩]

/-- Modelled from the spec: recomputing the root from a membership path by
repeated hashing of (current, sibling) pairs (for leaf index 0 the current
node is always the left input). -/
def recomputeRoot (M : Mat12) (ARK1 ARK2 : Fin 7 → State12) :
    List (Fin 4 → F) → Fin 4 → F
  | [] => fun _ => 0
  | d :: rest => rest.foldl (fun acc s => mergeDigests M ARK1 ARK2 acc s) d

/-- The all-zero table of 8 public keys, a concrete instance. -/
def zeroPks : Fin 8 → Fin 4 → F := fun _ _ => 0

/-- The concrete sponge seed state (4, 0, ..., 0) for the all-zero input. -/
def seed4 : State12 := fun i => if (i : ℕ) = 0 then 4 else 0

def uS1 : State12 := ![5, 1, 1, 1, 1, 1, 1, 1, 1, 1, 1, 1]
def uS2 : State12 := ![6, 2, 2, 2, 2, 2, 2, 2, 2, 2, 2, 2]
def uS3 : State12 := ![7, 3, 3, 3, 3, 3, 3, 3, 3, 3, 3, 3]
def uS4 : State12 := ![8, 4, 4, 4, 4, 4, 4, 4, 4, 4, 4, 4]
def uS5 : State12 := ![9, 5, 5, 5, 5, 5, 5, 5, 5, 5, 5, 5]
def uS6 : State12 := ![10, 6, 6, 6, 6, 6, 6, 6, 6, 6, 6, 6]
def uS7 : State12 := ![11, 7, 7, 7, 7, 7, 7, 7, 7, 7, 7, 7]

set_option maxRecDepth 400000 in
/-- C7 counterexample: at concrete parameter values, the claim that each
Merkle leaf is the sponge digest of its public key is false: the source
wraps the key's 4 elements directly as the leaf digest, and the sponge
digest of the zero key under the chosen constants is (7, 7, 7, 7), not
(0, 0, 0, 0). -/
theorem leaf_digest_claim_refuted :
    ¬ (∀ (i : Fin 8) (k : Fin 4),
      merkleLeaf zeroPks i k = spongeDigest4 idMat zeroArk oneArk (zeroPks i) k) := by
  intro h
  have h0 := h ⟨0, by omega⟩ 0
  have hseed : spongeSeed4 (zeroPks ⟨0, by omega⟩) = seed4 := by decide
  have hval : spongeDigest4 idMat zeroArk oneArk (zeroPks ⟨0, by omega⟩) 0 =
      uS7 ⟨4, by omega⟩ := by
    show fwdRounds idMat zeroArk oneArk 7 (spongeSeed4 (zeroPks ⟨0, by omega⟩))
        ⟨4 + ((0 : Fin 4) : ℕ), by omega⟩ = uS7 ⟨4, by omega⟩
    rw [hseed]
    have e1 : apply_rescue_round idMat zeroArk oneArk ⟨0, by omega⟩ seed4 = uS1 := by
      decide
    have e2 : apply_rescue_round idMat zeroArk oneArk ⟨1, by omega⟩ uS1 = uS2 := by
      decide
    have e3 : apply_rescue_round idMat zeroArk oneArk ⟨2, by omega⟩ uS2 = uS3 := by
      decide
    have e4 : apply_rescue_round idMat zeroArk oneArk ⟨3, by omega⟩ uS3 = uS4 := by
      decide
    have e5 : apply_rescue_round idMat zeroArk oneArk ⟨4, by omega⟩ uS4 = uS5 := by
      decide
    have e6 : apply_rescue_round idMat zeroArk oneArk ⟨5, by omega⟩ uS5 = uS6 := by
      decide
    have e7 : apply_rescue_round idMat zeroArk oneArk ⟨6, by omega⟩ uS6 = uS7 := by
      decide
    have s1 : fwdRounds idMat zeroArk oneArk 1 seed4 = uS1 := by
      rw [fwdRounds_succ idMat zeroArk oneArk 0 (by omega) seed4]
      exact e1
    have s2 : fwdRounds idMat zeroArk oneArk 2 seed4 = uS2 := by
      rw [fwdRounds_succ idMat zeroArk oneArk 1 (by omega) seed4, s1]
      exact e2
    have s3 : fwdRounds idMat zeroArk oneArk 3 seed4 = uS3 := by
      rw [fwdRounds_succ idMat zeroArk oneArk 2 (by omega) seed4, s2]
      exact e3
    have s4 : fwdRounds idMat zeroArk oneArk 4 seed4 = uS4 := by
      rw [fwdRounds_succ idMat zeroArk oneArk 3 (by omega) seed4, s3]
      exact e4
    have s5 : fwdRounds idMat zeroArk oneArk 5 seed4 = uS5 := by
      rw [fwdRounds_succ idMat zeroArk oneArk 4 (by omega) seed4, s4]
      exact e5
    have s6 : fwdRounds idMat zeroArk oneArk 6 seed4 = uS6 := by
      rw [fwdRounds_succ idMat zeroArk oneArk 5 (by omega) seed4, s5]
      exact e6
    have s7 : fwdRounds idMat zeroArk oneArk 7 seed4 = uS7 := by
      rw [fwdRounds_succ idMat zeroArk oneArk 6 (by omega) seed4, s6]
      exact e7
    rw [s7]
    rfl
  exact absurd (h0.trans hval) (by decide)

/-- C7 (amended): each Merkle leaf is the public key's 4 elements wrapped
directly as a digest (no sponge call is applied to the key); for the 8-key
access set, the membership path for a leaf index is an ordered sequence of
height + 1 = 4 digests whose first entry is that leaf's digest, and for
leaf index 0 recomputing the root from the path by repeated pair hashing
reproduces the tree root. -/
theorem merkle_leaf_and_path_layout (M : Mat12) (ARK1 ARK2 : Fin 7 → State12)
    (pks : Fin 8 → Fin 4 → F) (idx : Fin 8) :
    (∀ k : Fin 4, merkleLeaf pks idx k = pks idx k) ∧
    (merklePath M ARK1 ARK2 pks idx).length = 4 ∧
    (merklePath M ARK1 ARK2 pks idx).head? = some (merkleLeaf pks idx) ∧
    recomputeRoot M ARK1 ARK2 (merklePath M ARK1 ARK2 pks ⟨0, by omega⟩) =
      treeRoot M ARK1 ARK2 pks := by
  exact ⟨fun k => rfl, rfl, rfl, rfl⟩

end Semaphore

